import Mathlib

/-!
Verification of the runtime-type-classification exercise.

The repository has three variants of the same small library:
* a TypeScript strict variant (namespace TS): sequence classifiers throw a
  TypeError on non-array input, and getRealType refines through the full
  chain null, array, date, regexp, set, map, error, arrayBuffer, dataView,
  promise;
* a plain-JavaScript strict variant (namespace JSStrict): same behaviour;
* a permissive variant (namespace Idx, from index.js): sequence classifiers
  return an empty array or false on non-array input, and getRealType only
  refines null, array, date, regexp and set.

JavaScript values are modelled by the inductive type Value below.  Reference
values (objects, arrays, dates, ...) carry an identity tag so that strict
equality (the JavaScript triple-equals operator) can be modelled as
reference equality on them; numbers are modelled by their classification-
relevant kind (NaN, positive or negative infinity, finite).
-/

/-- Kind of a JavaScript number, at the granularity the classifiers use:
the NaN sentinel, the two infinities, and finite numbers (whose numeric
value is irrelevant to classification and modelled by an integer). -/
inductive JsNumber : Type where
  | nan : JsNumber
  | posInf : JsNumber
  | negInf : JsNumber
  | finite (q : Int) : JsNumber
deriving DecidableEq

/-- A JavaScript value, at the granularity the classifiers inspect.
Reference values carry an identity tag modelling object identity. -/
inductive Value : Type where
  | num (n : JsNumber)
  | str (s : String)
  | bool (b : Bool)
  | bigint (i : Int)
  | sym (id : Nat)
  | undef
  | null
  | fn (id : Nat)
  | obj (id : Nat)
  | arr (id : Nat) (elems : List Value)
  | date (id : Nat)
  | regexp (id : Nat)
  | set (id : Nat)
  | map (id : Nat)
  | error (id : Nat)
  | arrayBuffer (id : Nat)
  | dataView (id : Nat)
  | promise (id : Nat)

/-- The JavaScript isNaN check on a number. -/
def JsNumber.isNaN : JsNumber → Bool
  | .nan => true
  | _ => false

/-- The JavaScript isFinite check on a number. -/
def JsNumber.isFinite : JsNumber → Bool
  | .finite _ => true
  | _ => false

/-- Strict equality of two numbers (NaN is not strictly equal to anything,
including itself). -/
def JsNumber.strictEqNum : JsNumber → JsNumber → Bool
  | .nan, _ => false
  | _, .nan => false
  | .posInf, .posInf => true
  | .negInf, .negInf => true
  | .finite a, .finite b => a == b
  | _, _ => false

/-- The Array.isArray check. -/
def Value.isArray : Value → Bool
  | .arr _ _ => true
  | _ => false

/-- JavaScript strict equality (triple equals): structural on primitives
(with NaN unequal to everything), reference identity on reference values. -/
def strictEq : Value → Value → Bool
  | .num a, .num b => a.strictEqNum b
  | .str a, .str b => a == b
  | .bool a, .bool b => a == b
  | .bigint a, .bigint b => a == b
  | .sym i, .sym j => i == j
  | .undef, .undef => true
  | .null, .null => true
  | .fn i, .fn j => i == j
  | .obj i, .obj j => i == j
  | .arr i _, .arr j _ => i == j
  | .date i, .date j => i == j
  | .regexp i, .regexp j => i == j
  | .set i, .set j => i == j
  | .map i, .map j => i == j
  | .error i, .error j => i == j
  | .arrayBuffer i, .arrayBuffer j => i == j
  | .dataView i, .dataView j => i == j
  | .promise i, .promise j => i == j
  | _, _ => false

/-- getType: the typeof operator.  All three variants use it unchanged. -/
def getType : Value → String
  | .num _ => "number"
  | .str _ => "string"
  | .bool _ => "boolean"
  | .bigint _ => "bigint"
  | .sym _ => "symbol"
  | .undef => "undefined"
  | .fn _ => "function"
  | .null => "object"
  | .obj _ => "object"
  | .arr _ _ => "object"
  | .date _ => "object"
  | .regexp _ => "object"
  | .set _ => "object"
  | .map _ => "object"
  | .error _ => "object"
  | .arrayBuffer _ => "object"
  | .dataView _ => "object"
  | .promise _ => "object"

namespace JSStrict

/-- getRealType of the strict JS variant: the number block (NaN, Infinity)
first, then the instanceof chain null, array, date, regexp, set, map, error,
arrayBuffer, dataView, promise, and otherwise the typeof label. -/
def getRealType (value : Value) : String :=
  let type := getType value
  match value with
  | .num n =>
      if n.isNaN then "NaN"
      else if ¬ n.isFinite then "Infinity"
      else type
  | .null => "null"
  | .arr _ _ => "array"
  | .date _ => "date"
  | .regexp _ => "regexp"
  | .set _ => "set"
  | .map _ => "map"
  | .error _ => "error"
  | .arrayBuffer _ => "arrayBuffer"
  | .dataView _ => "dataView"
  | .promise _ => "promise"
  | _ => type

/-- getTypesOfItems: throws a TypeError on non-array input, else maps
getType over the items. -/
def getTypesOfItems (arr : Value) : Except String (List String) :=
  match arr with
  | .arr _ items => .ok (items.map fun item => getType item)
  | _ => .error "Passed parameter is not an array"

/-- allItemsHaveTheSameType: throws on non-array input; true when the array
has at most one element, else compares the typeof of every later element
with the typeof of the first. -/
def allItemsHaveTheSameType (arr : Value) : Except String Bool :=
  match arr with
  | .arr _ [] => .ok true
  | .arr _ (hd :: tl) => .ok (tl.all fun item => getType item == getType hd)
  | _ => .error "Passed parameter is not an array"

/-- getRealTypesOfItems: throws on non-array input, else maps getRealType
over the items. -/
def getRealTypesOfItems (arr : Value) : Except String (List String) :=
  match arr with
  | .arr _ items => .ok (items.map fun item => getRealType item)
  | _ => .error "Passed parameter is not an array"

/-- Loop of everyItemHasAUniqueRealType: walk the items keeping the set of
real types seen so far; false as soon as a type repeats. -/
def everyLoop : List Value → List String → Bool
  | [], _ => true
  | item :: rest, types =>
      let type := getRealType item
      if types.contains type then false
      else everyLoop rest (type :: types)

/-- everyItemHasAUniqueRealType: throws on non-array input, else the loop
above starting from an empty seen-set. -/
def everyItemHasAUniqueRealType (arr : Value) : Except String Bool :=
  match arr with
  | .arr _ items => .ok (everyLoop items [])
  | _ => .error "Passed parameter is not an array"

/-- One Map update step of countRealTypes: bump the count of a type,
inserting it with count 1 when absent.  The association list keeps Map
insertion order. -/
def bump : List (String × Nat) → String → List (String × Nat)
  | [], type => [(type, 1)]
  | (k, v) :: rest, type =>
      if k = type then (k, v + 1) :: rest
      else (k, v) :: bump rest type

/-- Comparator of countRealTypes: entries are ordered by their first
component (the type label). -/
def pairLE (a b : String × Nat) : Prop := a.1 ≤ b.1

instance : DecidableRel pairLE := fun a b => inferInstanceAs (Decidable (a.1 ≤ b.1))

instance : IsTotal (String × Nat) pairLE := ⟨fun a b => le_total a.1 b.1⟩

instance : IsTrans (String × Nat) pairLE := ⟨fun _ _ _ => le_trans⟩

/-- countRealTypes: throws on non-array input, else tallies the real type
of each item into a Map (in first-occurrence order) and sorts the entries
ascending by label.  The JavaScript sort with the label comparator is
modelled by insertion sort; labels are distinct Map keys, so every sort
produces this one sorted permutation. -/
def countRealTypes (arr : Value) : Except String (List (String × Nat)) :=
  match arr with
  | .arr _ items =>
      .ok (List.insertionSort pairLE
        (items.foldl (fun result item => bump result (getRealType item)) []))
  | _ => .error "Passed parameter is not an array"

mutual

/-- areEqual of the strict variants: strict equality first, then, when both
sides are arrays of the same length, element-wise comparison. -/
def areEqual (a b : Value) : Bool :=
  if strictEq a b then true
  else
    match a, b with
    | .arr _ xs, .arr _ ys => xs.length == ys.length && everyPair xs ys
    | _, _ => false

/-- The a.every call of areEqual: element-wise areEqual over two lists
(only reached when the lengths agree). -/
def everyPair : List Value → List Value → Bool
  | [], _ => true
  | x :: xs, y :: ys => areEqual x y && everyPair xs ys
  | _ :: _, [] => false

end

end JSStrict

namespace TS

/-- getRealType of the TypeScript variant (identical runtime logic to the
strict JS variant). -/
def getRealType (value : Value) : String :=
  let type := getType value
  match value with
  | .num n =>
      if n.isNaN then "NaN"
      else if ¬ n.isFinite then "Infinity"
      else type
  | .null => "null"
  | .arr _ _ => "array"
  | .date _ => "date"
  | .regexp _ => "regexp"
  | .set _ => "set"
  | .map _ => "map"
  | .error _ => "error"
  | .arrayBuffer _ => "arrayBuffer"
  | .dataView _ => "dataView"
  | .promise _ => "promise"
  | _ => type

/-- getTypesOfItems of the TypeScript variant. -/
def getTypesOfItems (arr : Value) : Except String (List String) :=
  match arr with
  | .arr _ items => .ok (items.map fun item => getType item)
  | _ => .error "Passed parameter is not an array"

/-- allItemsHaveTheSameType of the TypeScript variant. -/
def allItemsHaveTheSameType (arr : Value) : Except String Bool :=
  match arr with
  | .arr _ [] => .ok true
  | .arr _ (hd :: tl) => .ok (tl.all fun item => getType item == getType hd)
  | _ => .error "Passed parameter is not an array"

/-- getRealTypesOfItems of the TypeScript variant. -/
def getRealTypesOfItems (arr : Value) : Except String (List String) :=
  match arr with
  | .arr _ items => .ok (items.map fun item => getRealType item)
  | _ => .error "Passed parameter is not an array"

/-- Loop of the TypeScript everyItemHasAUniqueRealType. -/
def everyLoop : List Value → List String → Bool
  | [], _ => true
  | item :: rest, types =>
      let type := getRealType item
      if types.contains type then false
      else everyLoop rest (type :: types)

/-- everyItemHasAUniqueRealType of the TypeScript variant. -/
def everyItemHasAUniqueRealType (arr : Value) : Except String Bool :=
  match arr with
  | .arr _ items => .ok (everyLoop items [])
  | _ => .error "Passed parameter is not an array"

/-- Map update step of the TypeScript countRealTypes. -/
def bump : List (String × Nat) → String → List (String × Nat)
  | [], type => [(type, 1)]
  | (k, v) :: rest, type =>
      if k = type then (k, v + 1) :: rest
      else (k, v) :: bump rest type

/-- countRealTypes of the TypeScript variant (same label comparator as the
strict JS variant). -/
def countRealTypes (arr : Value) : Except String (List (String × Nat)) :=
  match arr with
  | .arr _ items =>
      .ok (List.insertionSort JSStrict.pairLE
        (items.foldl (fun result item => bump result (getRealType item)) []))
  | _ => .error "Passed parameter is not an array"

end TS

namespace Idx

/-- getRealType of the permissive variant (index.js): the number block,
then an instanceof chain guarded by a typeof-object test that only covers
null, array, date, regexp and set; every other value keeps its typeof
label. -/
def getRealType (value : Value) : String :=
  let type := getType value
  match value with
  | .num n =>
      if n.isNaN then "NaN"
      else if ¬ n.isFinite then "Infinity"
      else type
  | .null => "null"
  | .arr _ _ => "array"
  | .date _ => "date"
  | .regexp _ => "regexp"
  | .set _ => "set"
  | _ => type

/-- getTypesOfItems of the permissive variant: empty array on non-array
input. -/
def getTypesOfItems (arr : Value) : List String :=
  match arr with
  | .arr _ items => items.map fun item => getType item
  | _ => []

/-- allItemsHaveTheSameType of the permissive variant: false on non-array
input, true on the empty array, else the loop comparing against the first
element's typeof. -/
def allItemsHaveTheSameType (arr : Value) : Bool :=
  match arr with
  | .arr _ [] => true
  | .arr _ (hd :: tl) => tl.all fun item => getType item == getType hd
  | _ => false

/-- getRealTypesOfItems of the permissive variant. -/
def getRealTypesOfItems (arr : Value) : List String :=
  match arr with
  | .arr _ items => items.map fun item => getRealType item
  | _ => []

/-- Loop of the permissive everyItemHasAUniqueRealType. -/
def everyLoop : List Value → List String → Bool
  | [], _ => true
  | item :: rest, types =>
      let type := getRealType item
      if types.contains type then false
      else everyLoop rest (type :: types)

/-- everyItemHasAUniqueRealType of the permissive variant: false on
non-array input. -/
def everyItemHasAUniqueRealType (arr : Value) : Bool :=
  match arr with
  | .arr _ items => everyLoop items []
  | _ => false

/-- Map update step of the permissive countRealTypes. -/
def bump : List (String × Nat) → String → List (String × Nat)
  | [], type => [(type, 1)]
  | (k, v) :: rest, type =>
      if k = type then (k, v + 1) :: rest
      else (k, v) :: bump rest type

/-- Sort key of the comparator-less JavaScript sort used by the permissive
countRealTypes: an entry [label, count] is compared as the string
label ++ comma ++ decimal count. -/
def sortKey (p : String × Nat) : String := p.1 ++ "," ++ Nat.repr p.2

/-- Entry order of the permissive countRealTypes sort. -/
def keyLE (a b : String × Nat) : Prop := sortKey a ≤ sortKey b

instance : DecidableRel keyLE := fun a b => inferInstanceAs (Decidable (sortKey a ≤ sortKey b))

instance : IsTotal (String × Nat) keyLE := ⟨fun a b => le_total (sortKey a) (sortKey b)⟩

instance : IsTrans (String × Nat) keyLE := ⟨fun _ _ _ => le_trans (b := sortKey _)⟩

/-- countRealTypes of the permissive variant: empty array on non-array
input, else the tally sorted by the default string conversion of the
entries. -/
def countRealTypes (arr : Value) : List (String × Nat) :=
  match arr with
  | .arr _ items =>
      List.insertionSort keyLE
        (items.foldl (fun result item => bump result (getRealType item)) [])
  | _ => []

mutual

/-- compareArrays of the permissive variant: false when the lengths differ,
else the element-wise loop. -/
def compareArrays (a b : List Value) : Bool :=
  if a.length == b.length then compareItems a b else false

/-- Loop of compareArrays: recurses when both elements are arrays and uses
strict equality otherwise. -/
def compareItems : List Value → List Value → Bool
  | x :: xs, y :: ys =>
      (match x, y with
       | .arr _ xv, .arr _ yv => compareArrays xv yv
       | _, _ => strictEq x y) && compareItems xs ys
  | _, _ => true

end

/-- areEqual of the permissive variant: compareArrays when both sides are
arrays, else strict equality. -/
def areEqual (a b : Value) : Bool :=
  match a, b with
  | .arr _ xs, .arr _ ys => compareArrays xs ys
  | _, _ => strictEq a b

end Idx

/-- Count stored in an association list for a given key (0 when absent).
Specification-side accessor used to reason about the countRealTypes tally. -/
def getCount : List (String × Nat) → String → Nat
  | [], _ => 0
  | (k, v) :: rest, type => if k = type then v else getCount rest type

/-- The tally loop of the strict countRealTypes, with an explicit
accumulator (countRealTypes starts it from the empty Map). -/
def tallyLoop (items : List Value) (m : List (String × Nat)) : List (String × Nat) :=
  items.foldl (fun result item => JSStrict.bump result (JSStrict.getRealType item)) m

/-- The tally loop of the permissive countRealTypes, with an explicit
accumulator. -/
def idxTallyLoop (items : List Value) (m : List (String × Nat)) : List (String × Nat) :=
  items.foldl (fun result item => Idx.bump result (Idx.getRealType item)) m

/-- Specification-side check on character lists: the two lists disagree at
some position that lies strictly inside both, and at the first such
position the left character is smaller.  For prefix-free vocabularies this
captures lexicographic order in a way that is stable under appending
arbitrary suffixes (such as the comma-and-count tail of the stringified
sort key of the permissive countRealTypes). -/
def strBefore : List Char → List Char → Bool
  | a :: as, b :: bs =>
      if a < b then true
      else if b < a then false
      else strBefore as bs
  | _, _ => false

/-- All labels the permissive getRealType can return: the refinements it
implements plus every coarse typeof label.  The list is prefix-free, which
makes the comparator-less sort of the permissive countRealTypes coincide
with sorting by label. -/
def idxVocab : List String :=
  ["null", "array", "NaN", "Infinity", "date", "regexp", "set",
   "number", "string", "boolean", "bigint", "symbol", "undefined", "function", "object"]

lemma getCount_bump (m : List (String × Nat)) (t k : String) :
    getCount (JSStrict.bump m t) k = if k = t then getCount m k + 1 else getCount m k := by
  induction m with
  | nil =>
      by_cases h : k = t
      · simp [JSStrict.bump, getCount, h]
      · simp [JSStrict.bump, getCount, h, Ne.symm h]
  | cons p rest ih =>
      obtain ⟨k0, v0⟩ := p
      by_cases h0 : k0 = t
      · subst h0
        by_cases h : k = k0
        · subst h
          simp [JSStrict.bump, getCount]
        · simp [JSStrict.bump, getCount, h, Ne.symm h]
      · by_cases h : k = k0
        · subst h
          simp [JSStrict.bump, getCount, h0]
        · simp [JSStrict.bump, getCount, h0, Ne.symm h, ih]

lemma keys_bump (m : List (String × Nat)) (t : String) :
    (JSStrict.bump m t).map Prod.fst =
      if t ∈ m.map Prod.fst then m.map Prod.fst else m.map Prod.fst ++ [t] := by
  induction m with
  | nil => simp [JSStrict.bump]
  | cons p rest ih =>
      obtain ⟨k0, v0⟩ := p
      by_cases h0 : k0 = t
      · subst h0
        simp [JSStrict.bump]
      · by_cases hm : t ∈ rest.map Prod.fst <;>
          simp [JSStrict.bump, h0, Ne.symm h0, hm, ih]

lemma mem_keys_bump (m : List (String × Nat)) (t k : String) :
    k ∈ (JSStrict.bump m t).map Prod.fst ↔ k ∈ m.map Prod.fst ∨ k = t := by
  rw [keys_bump]
  by_cases hm : t ∈ m.map Prod.fst
  · simp only [hm, if_true]
    constructor
    · exact Or.inl
    · rintro (h | rfl)
      · exact h
      · exact hm
  · simp [hm]

lemma nodup_keys_bump (m : List (String × Nat)) (t : String)
    (h : (m.map Prod.fst).Nodup) : ((JSStrict.bump m t).map Prod.fst).Nodup := by
  rw [keys_bump]
  by_cases hm : t ∈ m.map Prod.fst
  · simpa [hm]
  · simpa [hm, List.nodup_append]

lemma sum_bump (m : List (String × Nat)) (t : String) :
    ((JSStrict.bump m t).map Prod.snd).sum = ((m.map Prod.snd).sum) + 1 := by
  induction m with
  | nil => simp [JSStrict.bump]
  | cons p rest ih =>
      obtain ⟨k0, v0⟩ := p
      by_cases h0 : k0 = t <;> simp [JSStrict.bump, h0, ih] <;> omega

lemma pos_bump (m : List (String × Nat)) (t : String)
    (h : ∀ p ∈ m, 0 < p.2) : ∀ p ∈ JSStrict.bump m t, 0 < p.2 := by
  induction m with
  | nil =>
      intro p hp
      simp [JSStrict.bump] at hp
      simp [hp]
  | cons q rest ih =>
      obtain ⟨k0, v0⟩ := q
      intro p hp
      by_cases h0 : k0 = t
      · subst h0
        simp only [JSStrict.bump, if_pos rfl] at hp
        rcases List.mem_cons.mp hp with rfl | hp
        · simp
        · exact h p (List.mem_cons_of_mem _ hp)
      · simp only [JSStrict.bump, if_neg h0] at hp
        rcases List.mem_cons.mp hp with rfl | hp
        · exact h (k0, v0) (List.mem_cons_self _ _)
        · exact ih (fun q hq => h q (List.mem_cons_of_mem _ hq)) p hp

lemma tallyLoop_nil (m : List (String × Nat)) : tallyLoop [] m = m := rfl

lemma tallyLoop_cons (item : Value) (rest : List Value) (m : List (String × Nat)) :
    tallyLoop (item :: rest) m =
      tallyLoop rest (JSStrict.bump m (JSStrict.getRealType item)) := rfl

lemma getCount_tallyLoop (items : List Value) (m : List (String × Nat)) (k : String) :
    getCount (tallyLoop items m) k =
      getCount m k + (items.map JSStrict.getRealType).count k := by
  induction items generalizing m with
  | nil => simp [tallyLoop_nil]
  | cons item rest ih =>
      rw [tallyLoop_cons, ih, getCount_bump]
      simp only [List.map_cons, List.count_cons, beq_iff_eq]
      by_cases h : k = JSStrict.getRealType item
      · subst h
        rw [if_pos rfl, if_pos rfl]
        omega
      · rw [if_neg h, if_neg (fun hh => h hh.symm)]
        omega

lemma mem_keys_tallyLoop (items : List Value) (m : List (String × Nat)) (k : String) :
    k ∈ (tallyLoop items m).map Prod.fst ↔
      k ∈ m.map Prod.fst ∨ k ∈ items.map JSStrict.getRealType := by
  induction items generalizing m with
  | nil => simp [tallyLoop_nil]
  | cons item rest ih =>
      rw [tallyLoop_cons, ih, mem_keys_bump]
      simp only [List.map_cons, List.mem_cons]
      tauto

lemma nodup_keys_tallyLoop (items : List Value) (m : List (String × Nat))
    (h : (m.map Prod.fst).Nodup) : ((tallyLoop items m).map Prod.fst).Nodup := by
  induction items generalizing m with
  | nil => simpa [tallyLoop_nil]
  | cons item rest ih =>
      rw [tallyLoop_cons]
      exact ih _ (nodup_keys_bump _ _ h)

lemma sum_tallyLoop (items : List Value) (m : List (String × Nat)) :
    ((tallyLoop items m).map Prod.snd).sum = (m.map Prod.snd).sum + items.length := by
  induction items generalizing m with
  | nil => simp [tallyLoop_nil]
  | cons item rest ih =>
      rw [tallyLoop_cons, ih, sum_bump]
      simp only [List.length_cons]
      omega

lemma pos_tallyLoop (items : List Value) (m : List (String × Nat))
    (h : ∀ p ∈ m, 0 < p.2) : ∀ p ∈ tallyLoop items m, 0 < p.2 := by
  induction items generalizing m with
  | nil => exact h
  | cons item rest ih =>
      rw [tallyLoop_cons]
      exact ih _ (pos_bump _ _ h)

lemma everyLoop_iff (items : List Value) (types : List String) :
    JSStrict.everyLoop items types = true ↔
      ((items.map JSStrict.getRealType).Nodup ∧
        ∀ t ∈ items.map JSStrict.getRealType, t ∉ types) := by
  induction items generalizing types with
  | nil => simp [JSStrict.everyLoop]
  | cons item rest ih =>
      simp only [JSStrict.everyLoop]
      by_cases hc : JSStrict.getRealType item ∈ types
      · rw [if_pos (by simpa using hc)]
        simp only [Bool.false_eq_true, false_iff, not_and]
        intro _ hall
        exact (hall _ (by simp)) hc
      · rw [if_neg (by simpa using hc), ih]
        simp only [List.map_cons, List.nodup_cons, List.mem_cons]
        constructor
        · rintro ⟨hnd, hall⟩
          refine ⟨⟨fun hmem => (hall _ hmem) (Or.inl rfl), hnd⟩, ?_⟩
          intro t ht
          rcases ht with rfl | ht
          · exact hc
          · exact fun hty => (hall t ht) (Or.inr hty)
        · rintro ⟨⟨hni, hnd⟩, hall⟩
          refine ⟨hnd, fun t ht hmem => ?_⟩
          rcases hmem with rfl | hmem
          · exact hni ht
          · exact hall t (Or.inr ht) hmem

lemma idx_everyLoop_iff (items : List Value) (types : List String) :
    Idx.everyLoop items types = true ↔
      ((items.map Idx.getRealType).Nodup ∧
        ∀ t ∈ items.map Idx.getRealType, t ∉ types) := by
  induction items generalizing types with
  | nil => simp [Idx.everyLoop]
  | cons item rest ih =>
      simp only [Idx.everyLoop]
      by_cases hc : Idx.getRealType item ∈ types
      · rw [if_pos (by simpa using hc)]
        simp only [Bool.false_eq_true, false_iff, not_and]
        intro _ hall
        exact (hall _ (by simp)) hc
      · rw [if_neg (by simpa using hc), ih]
        simp only [List.map_cons, List.nodup_cons, List.mem_cons]
        constructor
        · rintro ⟨hnd, hall⟩
          refine ⟨⟨fun hmem => (hall _ hmem) (Or.inl rfl), hnd⟩, ?_⟩
          intro t ht
          rcases ht with rfl | ht
          · exact hc
          · exact fun hty => (hall t ht) (Or.inr hty)
        · rintro ⟨⟨hni, hnd⟩, hall⟩
          refine ⟨hnd, fun t ht hmem => ?_⟩
          rcases hmem with rfl | hmem
          · exact hni ht
          · exact hall t (Or.inr ht) hmem

lemma getCount_eq_of_mem (m : List (String × Nat)) (p : String × Nat)
    (hnd : (m.map Prod.fst).Nodup) (hp : p ∈ m) : getCount m p.1 = p.2 := by
  induction m with
  | nil => cases hp
  | cons q rest ih =>
      obtain ⟨k0, v0⟩ := q
      rw [List.map_cons, List.nodup_cons] at hnd
      rcases List.mem_cons.mp hp with rfl | hp
      · simp [getCount]
      · have hk : k0 ≠ p.1 := by
          intro hh
          apply hnd.1
          rw [hh]
          exact List.mem_map.mpr ⟨p, hp, rfl⟩
        simp only [getCount, if_neg hk]
        exact ih hnd.2 hp

lemma idx_bump_eq (m : List (String × Nat)) (t : String) :
    Idx.bump m t = JSStrict.bump m t := by
  induction m with
  | nil => rfl
  | cons p rest ih =>
      obtain ⟨k, v⟩ := p
      by_cases h : k = t <;> simp [Idx.bump, JSStrict.bump, h, ih]

lemma idxTallyLoop_nil (m : List (String × Nat)) : idxTallyLoop [] m = m := rfl

lemma idxTallyLoop_cons (item : Value) (rest : List Value) (m : List (String × Nat)) :
    idxTallyLoop (item :: rest) m =
      idxTallyLoop rest (Idx.bump m (Idx.getRealType item)) := rfl

lemma getCount_idxTallyLoop (items : List Value) (m : List (String × Nat)) (k : String) :
    getCount (idxTallyLoop items m) k =
      getCount m k + (items.map Idx.getRealType).count k := by
  induction items generalizing m with
  | nil => simp [idxTallyLoop_nil]
  | cons item rest ih =>
      rw [idxTallyLoop_cons, ih, idx_bump_eq, getCount_bump]
      simp only [List.map_cons, List.count_cons, beq_iff_eq]
      by_cases h : k = Idx.getRealType item
      · subst h
        rw [if_pos rfl, if_pos rfl]
        omega
      · rw [if_neg h, if_neg (fun hh => h hh.symm)]
        omega

lemma mem_keys_idxTallyLoop (items : List Value) (m : List (String × Nat)) (k : String) :
    k ∈ (idxTallyLoop items m).map Prod.fst ↔
      k ∈ m.map Prod.fst ∨ k ∈ items.map Idx.getRealType := by
  induction items generalizing m with
  | nil => simp [idxTallyLoop_nil]
  | cons item rest ih =>
      rw [idxTallyLoop_cons, ih, idx_bump_eq, mem_keys_bump]
      simp only [List.map_cons, List.mem_cons]
      tauto

lemma nodup_keys_idxTallyLoop (items : List Value) (m : List (String × Nat))
    (h : (m.map Prod.fst).Nodup) : ((idxTallyLoop items m).map Prod.fst).Nodup := by
  induction items generalizing m with
  | nil => simpa [idxTallyLoop_nil]
  | cons item rest ih =>
      rw [idxTallyLoop_cons, idx_bump_eq]
      exact ih _ (nodup_keys_bump _ _ h)

lemma sum_idxTallyLoop (items : List Value) (m : List (String × Nat)) :
    ((idxTallyLoop items m).map Prod.snd).sum = (m.map Prod.snd).sum + items.length := by
  induction items generalizing m with
  | nil => simp [idxTallyLoop_nil]
  | cons item rest ih =>
      rw [idxTallyLoop_cons, idx_bump_eq, ih, sum_bump]
      simp only [List.length_cons]
      omega

lemma lt_append_of_strBefore :
    ∀ (s t : List Char), strBefore s t = true →
      ∀ (X Y : List Char), List.Lex (fun c d => c < d) (s ++ X) (t ++ Y) := by
  intro s
  induction s with
  | nil =>
      intro t h X Y
      cases t <;> simp [strBefore] at h
  | cons a as ih =>
      intro t h X Y
      cases t with
      | nil => simp [strBefore] at h
      | cons b bs =>
          simp only [strBefore] at h
          by_cases hab : a < b
          · exact List.Lex.rel hab
          · rw [if_neg hab] at h
            by_cases hba : b < a
            · rw [if_pos hba] at h
              cases h
            · rw [if_neg hba] at h
              have hEq : a = b := le_antisymm (not_lt.mp hba) (not_lt.mp hab)
              subst hEq
              exact List.Lex.cons (ih bs h X Y)

lemma vocab_strBefore :
    ∀ s ∈ idxVocab, ∀ t ∈ idxVocab, s ≠ t →
      (strBefore s.data t.data = true ∨ strBefore t.data s.data = true) := by
  decide

lemma strLt_of_strBefore (s t : String) (h : strBefore s.data t.data = true) : s < t := by
  have key := lt_append_of_strBefore s.data t.data h [] []
  simp only [List.append_nil] at key
  exact String.lt_iff_toList_lt.mpr key

lemma idx_sortKey_lt (p q : String × Nat) (h : strBefore p.1.data q.1.data = true) :
    Idx.sortKey p < Idx.sortKey q := by
  have hdata : ∀ (x : String) (c : Nat),
      (x ++ "," ++ Nat.repr c).data = x.data ++ (",".data ++ (Nat.repr c).data) := by
    intro x c
    rw [String.data_append, String.data_append, List.append_assoc]
  apply String.lt_iff_toList_lt.mpr
  show List.Lex (fun c d => c < d) (Idx.sortKey p).data (Idx.sortKey q).data
  simp only [Idx.sortKey]
  rw [hdata, hdata]
  exact lt_append_of_strBefore _ _ h _ _

lemma idx_label_mem_vocab (v : Value) : Idx.getRealType v ∈ idxVocab := by
  cases v
  case num n =>
    cases n
    case nan => exact (by decide)
    case posInf => exact (by decide)
    case negInf => exact (by decide)
    case finite q => exact (show ("number" : String) ∈ _ by decide)
  case null => exact (by decide)
  case arr id elems => exact (show ("array" : String) ∈ _ by decide)
  case date id => exact (show ("date" : String) ∈ _ by decide)
  case regexp id => exact (show ("regexp" : String) ∈ _ by decide)
  case set id => exact (show ("set" : String) ∈ _ by decide)
  case map id => exact (show ("object" : String) ∈ _ by decide)
  case error id => exact (show ("object" : String) ∈ _ by decide)
  case arrayBuffer id => exact (show ("object" : String) ∈ _ by decide)
  case dataView id => exact (show ("object" : String) ∈ _ by decide)
  case promise id => exact (show ("object" : String) ∈ _ by decide)
  case str s => exact (show ("string" : String) ∈ _ by decide)
  case bool b => exact (show ("boolean" : String) ∈ _ by decide)
  case bigint i => exact (show ("bigint" : String) ∈ _ by decide)
  case sym id => exact (show ("symbol" : String) ∈ _ by decide)
  case undef => exact (by decide)
  case fn id => exact (show ("function" : String) ∈ _ by decide)
  case obj id => exact (show ("object" : String) ∈ _ by decide)

lemma idx_key_lt (p q : String × Nat) (hp : p.1 ∈ idxVocab) (hq : q.1 ∈ idxVocab)
    (hne : p.1 ≠ q.1) (hle : Idx.keyLE p q) : p.1 < q.1 := by
  rcases lt_trichotomy p.1 q.1 with h | h | h
  · exact h
  · exact absurd h hne
  · exfalso
    have hsb : strBefore q.1.data p.1.data = true := by
      rcases vocab_strBefore q.1 hq p.1 hp (Ne.symm hne) with hsb | hsb
      · exact hsb
      · exact absurd (strLt_of_strBefore _ _ hsb) (lt_asymm h)
    have hlt : Idx.sortKey q < Idx.sortKey p := idx_sortKey_lt q p hsb
    exact absurd hle (not_le.mpr hlt)

/-- C1: for every array, countRealTypes returns one pair per distinct
refined label of the array's elements, each count is the number of elements
with that label, the pairs are strictly ascending by label under ordinary
string comparison, and the counts sum to the array's length; proved both
for the strict variants and for the permissive index.js variant (whose
comparator-less sort of stringified entries coincides with sorting by
label, the reachable label vocabulary being prefix-free). -/
theorem countRealTypes_correct (id : Nat) (elems : List Value) :
    (∃ R, JSStrict.countRealTypes (.arr id elems) = .ok R ∧
      (R.map Prod.fst).Nodup ∧
      (∀ k, k ∈ R.map Prod.fst ↔ k ∈ elems.map JSStrict.getRealType) ∧
      (∀ p ∈ R, p.2 = (elems.map JSStrict.getRealType).count p.1) ∧
      (R.map Prod.fst).Pairwise (· < ·) ∧
      (R.map Prod.snd).sum = elems.length) ∧
    (∃ R, Idx.countRealTypes (.arr id elems) = R ∧
      (R.map Prod.fst).Nodup ∧
      (∀ k, k ∈ R.map Prod.fst ↔ k ∈ elems.map Idx.getRealType) ∧
      (∀ p ∈ R, p.2 = (elems.map Idx.getRealType).count p.1) ∧
      (R.map Prod.fst).Pairwise (· < ·) ∧
      (R.map Prod.snd).sum = elems.length) := by
  constructor
  · refine ⟨List.insertionSort JSStrict.pairLE (tallyLoop elems []), rfl, ?_, ?_, ?_, ?_, ?_⟩
    all_goals
      have hperm : (List.insertionSort JSStrict.pairLE (tallyLoop elems [])).Perm
          (tallyLoop elems []) := List.perm_insertionSort _ _
      have hndT : ((tallyLoop elems []).map Prod.fst).Nodup :=
        nodup_keys_tallyLoop elems [] (by simp)
      have hpermfst := hperm.map Prod.fst
    · exact hpermfst.nodup_iff.mpr hndT
    · intro k
      rw [hpermfst.mem_iff, mem_keys_tallyLoop]
      simp
    · intro p hp
      have hpT : p ∈ tallyLoop elems [] := hperm.mem_iff.mp hp
      have := getCount_eq_of_mem (tallyLoop elems []) p hndT hpT
      rw [← this, getCount_tallyLoop]
      simp [getCount]
    · have hs : List.Pairwise JSStrict.pairLE
          (List.insertionSort JSStrict.pairLE (tallyLoop elems [])) :=
        List.sorted_insertionSort _ _
      have hne : List.Pairwise (fun p q : String × Nat => p.1 ≠ q.1)
          (List.insertionSort JSStrict.pairLE (tallyLoop elems [])) :=
        List.pairwise_map.mp (hpermfst.nodup_iff.mpr hndT)
      exact List.pairwise_map.mpr ((hs.and hne).imp fun h => lt_of_le_of_ne h.1 h.2)
    · rw [(hperm.map Prod.snd).sum_eq, sum_tallyLoop]
      simp
  · refine ⟨List.insertionSort Idx.keyLE (idxTallyLoop elems []), rfl, ?_, ?_, ?_, ?_, ?_⟩
    all_goals
      have hperm : (List.insertionSort Idx.keyLE (idxTallyLoop elems [])).Perm
          (idxTallyLoop elems []) := List.perm_insertionSort _ _
      have hndT : ((idxTallyLoop elems []).map Prod.fst).Nodup :=
        nodup_keys_idxTallyLoop elems [] (by simp)
      have hpermfst := hperm.map Prod.fst
    · exact hpermfst.nodup_iff.mpr hndT
    · intro k
      rw [hpermfst.mem_iff, mem_keys_idxTallyLoop]
      simp
    · intro p hp
      have hpT : p ∈ idxTallyLoop elems [] := hperm.mem_iff.mp hp
      have := getCount_eq_of_mem (idxTallyLoop elems []) p hndT hpT
      rw [← this, getCount_idxTallyLoop]
      simp [getCount]
    · have hs : List.Pairwise Idx.keyLE
          (List.insertionSort Idx.keyLE (idxTallyLoop elems [])) :=
        List.sorted_insertionSort _ _
      have hne : List.Pairwise (fun p q : String × Nat => p.1 ≠ q.1)
          (List.insertionSort Idx.keyLE (idxTallyLoop elems [])) :=
        List.pairwise_map.mp (hpermfst.nodup_iff.mpr hndT)
      have hmemV : ∀ p ∈ List.insertionSort Idx.keyLE (idxTallyLoop elems []),
          p.1 ∈ idxVocab := by
        intro p hp
        have hpT : p ∈ idxTallyLoop elems [] := hperm.mem_iff.mp hp
        have hk : p.1 ∈ (idxTallyLoop elems []).map Prod.fst :=
          List.mem_map.mpr ⟨p, hpT, rfl⟩
        rw [mem_keys_idxTallyLoop] at hk
        rcases hk with hk | hk
        · simp at hk
        · obtain ⟨v, _, hv⟩ := List.mem_map.mp hk
          exact hv ▸ idx_label_mem_vocab v
      refine List.pairwise_map.mpr (List.Pairwise.imp_of_mem ?_ (hs.and hne))
      intro p q hp hq hpq
      exact idx_key_lt p q (hmemV p hp) (hmemV q hq) hpq.2 hpq.1
    · rw [(hperm.map Prod.snd).sum_eq, sum_idxTallyLoop]
      simp

/-- C3: in both the strict and the permissive variant, the uniqueness check
on an array is true exactly when the refined labels of its elements contain
no duplicate, and in particular it is true on the empty array. -/
theorem uniqueness_iff_nodup :
    (∀ id elems, (JSStrict.everyItemHasAUniqueRealType (.arr id elems) = .ok true ↔
        (elems.map JSStrict.getRealType).Nodup) ∧
      JSStrict.everyItemHasAUniqueRealType (.arr id ([] : List Value)) = .ok true) ∧
    ∀ id elems, (Idx.everyItemHasAUniqueRealType (.arr id elems) = true ↔
        (elems.map Idx.getRealType).Nodup) ∧
      Idx.everyItemHasAUniqueRealType (.arr id ([] : List Value)) = true := by
  constructor
  · intro id elems
    constructor
    · show Except.ok (JSStrict.everyLoop elems []) = .ok true ↔ _
      rw [show (Except.ok (JSStrict.everyLoop elems []) =
          (.ok true : Except String Bool)) ↔ JSStrict.everyLoop elems [] = true by simp]
      rw [everyLoop_iff]
      simp
    · rfl
  · intro id elems
    constructor
    · show Idx.everyLoop elems [] = true ↔ _
      rw [idx_everyLoop_iff]
      simp
    · rfl

/-- C4: in both the strict and the permissive variant, the uniformity check
on an array is true exactly when the array has at most one element or every
element's coarse label equals the first element's coarse label. -/
theorem uniformity_check_spec :
    (∀ id, JSStrict.allItemsHaveTheSameType (.arr id ([] : List Value)) = .ok true) ∧
    (∀ id x, JSStrict.allItemsHaveTheSameType (.arr id [x]) = .ok true) ∧
    (∀ id hd tl, JSStrict.allItemsHaveTheSameType (.arr id (hd :: tl)) = .ok true ↔
      ∀ v ∈ hd :: tl, getType v = getType hd) ∧
    (∀ id, Idx.allItemsHaveTheSameType (.arr id ([] : List Value)) = true) ∧
    (∀ id x, Idx.allItemsHaveTheSameType (.arr id [x]) = true) ∧
    (∀ id hd tl, Idx.allItemsHaveTheSameType (.arr id (hd :: tl)) = true ↔
      ∀ v ∈ hd :: tl, getType v = getType hd) := by
  refine ⟨fun id => rfl, fun id x => by simp [JSStrict.allItemsHaveTheSameType],
    fun id hd tl => ?_, fun id => rfl, fun id x => by simp [Idx.allItemsHaveTheSameType],
    fun id hd tl => ?_⟩
  · simp [JSStrict.allItemsHaveTheSameType, List.all_eq_true]
  · simp [Idx.allItemsHaveTheSameType, List.all_eq_true]

/-- C5: for every value with coarse label number, the strict getRealType
returns NaN on the not-a-number sentinel, Infinity on the non-finite
values, and number otherwise; the permissive variant agrees. -/
theorem getRealType_number_refinement (v : Value) (h : getType v = "number") :
    ∃ n, v = Value.num n ∧
      JSStrict.getRealType v =
        (if n.isNaN then "NaN" else if n.isFinite then "number" else "Infinity") ∧
      Idx.getRealType v = JSStrict.getRealType v := by
  cases v
  case num n => exact ⟨n, rfl, by cases n <;> rfl, rfl⟩
  all_goals simp [getType] at h

/-- Witness for C5 at the NaN sentinel. -/
theorem getRealType_number_refinement_witness :
    getType (.num .nan) = "number" ∧
      ∃ n, Value.num JsNumber.nan = Value.num n ∧
        JSStrict.getRealType (.num .nan) =
          (if n.isNaN then "NaN" else if n.isFinite then "number" else "Infinity") ∧
        Idx.getRealType (.num .nan) = JSStrict.getRealType (.num .nan) :=
  ⟨rfl, getRealType_number_refinement (.num .nan) rfl⟩

/-- C6: on every non-array input the strict variants make all five sequence
classifiers signal the TypeError, and the permissive variant makes the
listing and counting classifiers return an empty array and the uniformity
and uniqueness checks return false. -/
theorem nonarray_policy_consistent (v : Value) (h : v.isArray = false) :
    (JSStrict.getTypesOfItems v = .error "Passed parameter is not an array" ∧
     JSStrict.allItemsHaveTheSameType v = .error "Passed parameter is not an array" ∧
     JSStrict.getRealTypesOfItems v = .error "Passed parameter is not an array" ∧
     JSStrict.everyItemHasAUniqueRealType v = .error "Passed parameter is not an array" ∧
     JSStrict.countRealTypes v = .error "Passed parameter is not an array") ∧
    (TS.getTypesOfItems v = .error "Passed parameter is not an array" ∧
     TS.allItemsHaveTheSameType v = .error "Passed parameter is not an array" ∧
     TS.getRealTypesOfItems v = .error "Passed parameter is not an array" ∧
     TS.everyItemHasAUniqueRealType v = .error "Passed parameter is not an array" ∧
     TS.countRealTypes v = .error "Passed parameter is not an array") ∧
    (Idx.getTypesOfItems v = [] ∧
     Idx.allItemsHaveTheSameType v = false ∧
     Idx.getRealTypesOfItems v = [] ∧
     Idx.everyItemHasAUniqueRealType v = false ∧
     Idx.countRealTypes v = []) := by
  cases v <;> first
    | exact ⟨⟨rfl, rfl, rfl, rfl, rfl⟩, ⟨rfl, rfl, rfl, rfl, rfl⟩, rfl, rfl, rfl, rfl, rfl⟩
    | simp [Value.isArray] at h

/-- Witness for C6 at the null value. -/
theorem nonarray_policy_consistent_witness :
    Value.isArray .null = false ∧
      ((JSStrict.getTypesOfItems .null = .error "Passed parameter is not an array" ∧
        JSStrict.allItemsHaveTheSameType .null = .error "Passed parameter is not an array" ∧
        JSStrict.getRealTypesOfItems .null = .error "Passed parameter is not an array" ∧
        JSStrict.everyItemHasAUniqueRealType .null = .error "Passed parameter is not an array" ∧
        JSStrict.countRealTypes .null = .error "Passed parameter is not an array") ∧
      (TS.getTypesOfItems .null = .error "Passed parameter is not an array" ∧
        TS.allItemsHaveTheSameType .null = .error "Passed parameter is not an array" ∧
        TS.getRealTypesOfItems .null = .error "Passed parameter is not an array" ∧
        TS.everyItemHasAUniqueRealType .null = .error "Passed parameter is not an array" ∧
        TS.countRealTypes .null = .error "Passed parameter is not an array") ∧
      (Idx.getTypesOfItems .null = [] ∧
        Idx.allItemsHaveTheSameType .null = false ∧
        Idx.getRealTypesOfItems .null = [] ∧
        Idx.everyItemHasAUniqueRealType .null = false ∧
        Idx.countRealTypes .null = [])) :=
  ⟨rfl, nonarray_policy_consistent .null rfl⟩

/-- C7: getRealType is total in both variants and its label is either the
coarse typeof label or one of the enumerated refinements. -/
theorem getRealType_total_range (v : Value) :
    (JSStrict.getRealType v = getType v ∨
      JSStrict.getRealType v ∈ ["null", "array", "NaN", "Infinity", "date", "regexp", "set",
        "map", "error", "arrayBuffer", "dataView", "promise"]) ∧
    (Idx.getRealType v = getType v ∨
      Idx.getRealType v ∈ ["null", "array", "NaN", "Infinity", "date", "regexp", "set",
        "map", "error", "arrayBuffer", "dataView", "promise"]) := by
  cases v
  case num n =>
    cases n
    case nan => exact ⟨Or.inr (by decide), Or.inr (by decide)⟩
    case posInf => exact ⟨Or.inr (by decide), Or.inr (by decide)⟩
    case negInf => exact ⟨Or.inr (by decide), Or.inr (by decide)⟩
    case finite q => exact ⟨Or.inl rfl, Or.inl rfl⟩
  case null => exact ⟨Or.inr (by decide), Or.inr (by decide)⟩
  case arr id elems =>
    exact ⟨Or.inr (show ("array" : String) ∈ _ by decide),
      Or.inr (show ("array" : String) ∈ _ by decide)⟩
  case date id =>
    exact ⟨Or.inr (show ("date" : String) ∈ _ by decide),
      Or.inr (show ("date" : String) ∈ _ by decide)⟩
  case regexp id =>
    exact ⟨Or.inr (show ("regexp" : String) ∈ _ by decide),
      Or.inr (show ("regexp" : String) ∈ _ by decide)⟩
  case set id =>
    exact ⟨Or.inr (show ("set" : String) ∈ _ by decide),
      Or.inr (show ("set" : String) ∈ _ by decide)⟩
  case map id => exact ⟨Or.inr (show ("map" : String) ∈ _ by decide), Or.inl rfl⟩
  case error id => exact ⟨Or.inr (show ("error" : String) ∈ _ by decide), Or.inl rfl⟩
  case arrayBuffer id =>
    exact ⟨Or.inr (show ("arrayBuffer" : String) ∈ _ by decide), Or.inl rfl⟩
  case dataView id =>
    exact ⟨Or.inr (show ("dataView" : String) ∈ _ by decide), Or.inl rfl⟩
  case promise id =>
    exact ⟨Or.inr (show ("promise" : String) ∈ _ by decide), Or.inl rfl⟩
  all_goals exact ⟨Or.inl rfl, Or.inl rfl⟩

/-- C2 counterexample: the permissive getRealType maps a Map instance to
the label object, not to map. -/
theorem idx_getRealType_map_counterexample :
    Idx.getRealType (Value.map 0) = "object" ∧ ("object" : String) ≠ "map" :=
  ⟨rfl, by decide⟩

/-- C2 amended: the strict variants follow the full precedence chain (null,
array, date, regexp, set, map, error, arrayBuffer, dataView, promise, else
the coarse label); the permissive variant follows it only through set and
maps Map, Error, ArrayBuffer, DataView and Promise instances to their
coarse label object. -/
theorem getRealType_precedence_amended :
    (JSStrict.getRealType Value.null = "null" ∧
     (∀ id elems, JSStrict.getRealType (.arr id elems) = "array") ∧
     (∀ id, JSStrict.getRealType (.date id) = "date") ∧
     (∀ id, JSStrict.getRealType (.regexp id) = "regexp") ∧
     (∀ id, JSStrict.getRealType (.set id) = "set") ∧
     (∀ id, JSStrict.getRealType (.map id) = "map") ∧
     (∀ id, JSStrict.getRealType (.error id) = "error") ∧
     (∀ id, JSStrict.getRealType (.arrayBuffer id) = "arrayBuffer") ∧
     (∀ id, JSStrict.getRealType (.dataView id) = "dataView") ∧
     (∀ id, JSStrict.getRealType (.promise id) = "promise") ∧
     (∀ s, JSStrict.getRealType (.str s) = getType (.str s)) ∧
     (∀ b, JSStrict.getRealType (.bool b) = getType (.bool b)) ∧
     (∀ i, JSStrict.getRealType (.bigint i) = getType (.bigint i)) ∧
     (∀ id, JSStrict.getRealType (.sym id) = getType (.sym id)) ∧
     JSStrict.getRealType .undef = getType .undef ∧
     (∀ id, JSStrict.getRealType (.fn id) = getType (.fn id)) ∧
     (∀ id, JSStrict.getRealType (.obj id) = getType (.obj id)) ∧
     (∀ q, JSStrict.getRealType (.num (.finite q)) = getType (.num (.finite q)))) ∧
    (Idx.getRealType Value.null = "null" ∧
     (∀ id elems, Idx.getRealType (.arr id elems) = "array") ∧
     (∀ id, Idx.getRealType (.date id) = "date") ∧
     (∀ id, Idx.getRealType (.regexp id) = "regexp") ∧
     (∀ id, Idx.getRealType (.set id) = "set") ∧
     (∀ id, Idx.getRealType (.map id) = "object") ∧
     (∀ id, Idx.getRealType (.error id) = "object") ∧
     (∀ id, Idx.getRealType (.arrayBuffer id) = "object") ∧
     (∀ id, Idx.getRealType (.dataView id) = "object") ∧
     (∀ id, Idx.getRealType (.promise id) = "object")) :=
  ⟨⟨rfl, fun _ _ => rfl, fun _ => rfl, fun _ => rfl, fun _ => rfl, fun _ => rfl,
    fun _ => rfl, fun _ => rfl, fun _ => rfl, fun _ => rfl, fun _ => rfl, fun _ => rfl,
    fun _ => rfl, fun _ => rfl, rfl, fun _ => rfl, fun _ => rfl, fun _ => rfl⟩,
   ⟨rfl, fun _ _ => rfl, fun _ => rfl, fun _ => rfl, fun _ => rfl, fun _ => rfl,
    fun _ => rfl, fun _ => rfl, fun _ => rfl, fun _ => rfl⟩⟩

lemma result_counts (elems : List Value) :
    ∀ p ∈ List.insertionSort JSStrict.pairLE (tallyLoop elems []),
      p.2 = (elems.map JSStrict.getRealType).count p.1 := by
  intro p hp
  have hperm := List.perm_insertionSort JSStrict.pairLE (tallyLoop elems [])
  have hndT : ((tallyLoop elems []).map Prod.fst).Nodup :=
    nodup_keys_tallyLoop elems [] (by simp)
  have hpT : p ∈ tallyLoop elems [] := hperm.mem_iff.mp hp
  have hgc := getCount_eq_of_mem (tallyLoop elems []) p hndT hpT
  rw [← hgc, getCount_tallyLoop]
  simp [getCount]

lemma result_keys (elems : List Value) (k : String) :
    k ∈ (List.insertionSort JSStrict.pairLE (tallyLoop elems [])).map Prod.fst ↔
      k ∈ elems.map JSStrict.getRealType := by
  have hperm := (List.perm_insertionSort JSStrict.pairLE (tallyLoop elems [])).map Prod.fst
  rw [hperm.mem_iff, mem_keys_tallyLoop]
  simp

lemma everyOk_iff_nodup (id : Nat) (elems : List Value) :
    JSStrict.everyItemHasAUniqueRealType (.arr id elems) = .ok true ↔
      (elems.map JSStrict.getRealType).Nodup := by
  show Except.ok (JSStrict.everyLoop elems []) = .ok true ↔ _
  rw [show (Except.ok (JSStrict.everyLoop elems []) = (.ok true : Except String Bool)) ↔
      JSStrict.everyLoop elems [] = true by simp]
  rw [everyLoop_iff]
  simp

/-- C8: the uniqueness check accepts an array exactly when every count in
the frequency-count result equals one. -/
theorem unique_iff_all_counts_one (id : Nat) (elems : List Value) :
    JSStrict.everyItemHasAUniqueRealType (.arr id elems) = .ok true ↔
      ∃ R, JSStrict.countRealTypes (.arr id elems) = .ok R ∧ ∀ p ∈ R, p.2 = 1 := by
  rw [everyOk_iff_nodup]
  constructor
  · intro hnd
    refine ⟨List.insertionSort JSStrict.pairLE (tallyLoop elems []), rfl, ?_⟩
    intro p hp
    rw [result_counts elems p hp]
    have hmem : p.1 ∈ elems.map JSStrict.getRealType :=
      (result_keys elems p.1).mp (List.mem_map.mpr ⟨p, hp, rfl⟩)
    exact List.count_eq_one_of_mem hnd hmem
  · rintro ⟨R, hR, hall⟩
    have hReq : List.insertionSort JSStrict.pairLE (tallyLoop elems []) = R :=
      Except.ok.inj hR
    rw [List.nodup_iff_count_le_one]
    intro a
    by_cases hmem : a ∈ elems.map JSStrict.getRealType
    · have hkey : a ∈ (List.insertionSort JSStrict.pairLE (tallyLoop elems [])).map Prod.fst :=
        (result_keys elems a).mpr hmem
      obtain ⟨p, hp, hfst⟩ := List.mem_map.mp hkey
      have h1 : p.2 = 1 := hall p (hReq ▸ hp)
      have h2 : p.2 = (elems.map JSStrict.getRealType).count p.1 := result_counts elems p hp
      rw [← hfst]
      rw [← h2, h1]
    · simp [List.count_eq_zero_of_not_mem hmem]

lemma ts_getRealType_eq (v : Value) : TS.getRealType v = JSStrict.getRealType v := by
  cases v <;> rfl

lemma ts_bump_eq (m : List (String × Nat)) (t : String) :
    TS.bump m t = JSStrict.bump m t := by
  induction m with
  | nil => rfl
  | cons p rest ih =>
      obtain ⟨k, v⟩ := p
      by_cases h : k = t <;> simp [TS.bump, JSStrict.bump, h, ih]

lemma ts_everyLoop_eq (items : List Value) (types : List String) :
    TS.everyLoop items types = JSStrict.everyLoop items types := by
  induction items generalizing types with
  | nil => rfl
  | cons item rest ih =>
      simp only [TS.everyLoop, JSStrict.everyLoop, ts_getRealType_eq, ih]

lemma ts_tally_eq (items : List Value) (m : List (String × Nat)) :
    items.foldl (fun result item => TS.bump result (TS.getRealType item)) m =
      tallyLoop items m := by
  induction items generalizing m with
  | nil => rfl
  | cons item rest ih =>
      rw [List.foldl_cons, ts_getRealType_eq, ts_bump_eq, ih, tallyLoop_cons]

/-- C9: the TypeScript variant and the strict JavaScript variant compute
extensionally equal functions (same results, and errors under the same
condition) on every input value. -/
theorem ts_js_strict_extensional_eq (v : Value) :
    TS.getRealType v = JSStrict.getRealType v ∧
    TS.getTypesOfItems v = JSStrict.getTypesOfItems v ∧
    TS.allItemsHaveTheSameType v = JSStrict.allItemsHaveTheSameType v ∧
    TS.everyItemHasAUniqueRealType v = JSStrict.everyItemHasAUniqueRealType v ∧
    TS.countRealTypes v = JSStrict.countRealTypes v := by
  refine ⟨ts_getRealType_eq v, ?_, ?_, ?_, ?_⟩
  · cases v <;> rfl
  · cases v
    case arr id elems => cases elems <;> rfl
    all_goals rfl
  · cases v
    case arr id elems => exact congrArg Except.ok (ts_everyLoop_eq elems [])
    all_goals rfl
  · cases v
    case arr id elems =>
      exact congrArg (fun l => Except.ok (List.insertionSort JSStrict.pairLE l))
        (ts_tally_eq elems [])
    all_goals rfl

lemma lawfulBeqComm {α : Type} [BEq α] [LawfulBEq α] (a b : α) : (a == b) = (b == a) := by
  by_cases h : a = b
  · subst h
    rfl
  · rw [beq_eq_false_iff_ne.mpr h, beq_eq_false_iff_ne.mpr (Ne.symm h)]

lemma strictEqNum_symm (a b : JsNumber) : a.strictEqNum b = b.strictEqNum a := by
  cases a <;> cases b <;> first | rfl | exact lawfulBeqComm _ _

lemma strictEq_symm (a b : Value) : strictEq a b = strictEq b a := by
  cases a <;> cases b <;> first | rfl | exact lawfulBeqComm _ _ | exact strictEqNum_symm _ _

mutual

theorem areEqual_symm (a b : Value) : JSStrict.areEqual a b = JSStrict.areEqual b a := by
  rw [JSStrict.areEqual.eq_def, JSStrict.areEqual.eq_def, strictEq_symm b a]
  by_cases hs : strictEq a b = true
  · rw [if_pos hs, if_pos hs]
  · rw [if_neg hs, if_neg hs]
    cases a <;> cases b <;> try rfl
    next i xs j ys =>
      show (xs.length == ys.length && JSStrict.everyPair xs ys) =
        (ys.length == xs.length && JSStrict.everyPair ys xs)
      by_cases hl : xs.length = ys.length
      · have h1 : (xs.length == ys.length) = true := by simpa using hl
        have h2 : (ys.length == xs.length) = true := by simpa using hl.symm
        rw [h1, h2]
        simp only [Bool.true_and]
        exact everyPair_symm xs ys hl
      · have h1 : (xs.length == ys.length) = false := by simpa using hl
        have h2 : (ys.length == xs.length) = false := by
          simpa using fun hh => hl hh.symm
        rw [h1, h2]
        rfl

theorem everyPair_symm (xs ys : List Value) (h : xs.length = ys.length) :
    JSStrict.everyPair xs ys = JSStrict.everyPair ys xs := by
  cases xs with
  | nil =>
      cases ys with
      | nil => rfl
      | cons y ys => simp at h
  | cons x xs =>
      cases ys with
      | nil => simp at h
      | cons y ys =>
          show (JSStrict.areEqual x y && JSStrict.everyPair xs ys) = _
          rw [areEqual_symm x y, everyPair_symm xs ys (by simpa using h)]
          rfl

end

mutual

theorem compareArrays_symm (a b : List Value) :
    Idx.compareArrays a b = Idx.compareArrays b a := by
  rw [Idx.compareArrays.eq_def, Idx.compareArrays.eq_def]
  by_cases hl : a.length = b.length
  · have h1 : (a.length == b.length) = true := by simpa using hl
    have h2 : (b.length == a.length) = true := by simpa using hl.symm
    rw [h1, h2, if_pos rfl, if_pos rfl]
    exact compareItems_symm a b
  · have h1 : (a.length == b.length) = false := by simpa using hl
    have h2 : (b.length == a.length) = false := by
      simpa using fun hh => hl hh.symm
    rw [h1, h2]
    rfl

theorem compareItems_symm (a b : List Value) :
    Idx.compareItems a b = Idx.compareItems b a := by
  cases a with
  | nil =>
      cases b with
      | nil => simp [Idx.compareItems]
      | cons y ys => simp [Idx.compareItems]
  | cons x xs =>
      cases b with
      | nil => simp [Idx.compareItems]
      | cons y ys =>
          have hrest := compareItems_symm xs ys
          cases x <;> cases y <;> simp only [Idx.compareItems] <;> rw [hrest] <;> first
            | rfl
            | rw [strictEq_symm]
            | rw [compareArrays_symm]

end

/-- C10: deep structural equality of the test harness is symmetric, both in
the strict variants' areEqual and in the permissive variant's areEqual
built on compareArrays. -/
theorem areEqual_symmetric :
    (∀ a b, JSStrict.areEqual a b = JSStrict.areEqual b a) ∧
    (∀ a b, Idx.areEqual a b = Idx.areEqual b a) := by
  refine ⟨areEqual_symm, ?_⟩
  intro a b
  cases a <;> cases b <;> simp only [Idx.areEqual] <;> first
    | exact strictEq_symm _ _
    | exact compareArrays_symm _ _
